import Mathlib

/-!
# Verification of the Finna catalog normalization core

A shallow embedding of the transformation/extraction layer of
`src/services/finnaApi.ts` (the functions `transformRecord`,
`getBookDetails` (its post-fetch, in-memory part), `extractAvailability`
and `extractHoldings`), together with theorems settling the frozen claims
about the natural-language specification of that layer.

JavaScript values decoded from JSON (plus `undefined`) are modelled by
`JsVal`; machine behaviour that matters here — truthiness, `||`, strict
equality with string literals, `Array.isArray`, `typeof x === 'string'`,
property access (which throws a `TypeError` on `null`/`undefined`
receivers, modelled by `Option`), optional chaining, `String(x)`
conversion, and `+` on the values reachable in this code — is embedded
explicitly.  Numbers are modelled as integers: every numeric literal and
every arithmetic step in the embedded code is integral, and the claims
quantify only over integral counts.
-/

/-- A JavaScript value as this code can observe it: JSON values plus
`undefined`.  Objects are association lists (keys unique in practice);
field lookup takes the first match. -/
inductive JsVal where
  | undefined
  | null
  | bool (b : Bool)
  | num (n : Int)
  | str (s : String)
  | arr (elems : List JsVal)
  | obj (fields : List (String × JsVal))

namespace JsVal

/-- First-match lookup in an object's field list; `undefined` when absent,
like JS property access on a plain object. -/
def lookupField : List (String × JsVal) → String → JsVal
  | [], _ => .undefined
  | (k, v) :: rest, key => if k = key then v else lookupField rest key

/-- JS property access `v[key]`: throws (`none`) on `null`/`undefined`
receivers, yields `undefined` on primitives and arrays (none of our keys
is an array index or `length`), looks up the field on objects. -/
def jsGet : JsVal → String → Option JsVal
  | .null, _ => none
  | .undefined, _ => none
  | .obj fs, key => some (lookupField fs key)
  | _, _ => some .undefined

/-- JS optional-chained access `v?.[key]` / `v?.key`: total, `undefined`
instead of throwing on `null`/`undefined`. -/
def jsGetQ : JsVal → String → JsVal
  | .null, _ => .undefined
  | .undefined, _ => .undefined
  | .obj fs, key => lookupField fs key
  | _, _ => .undefined

/-- Total field projection used in theorem statements about values that
are known to be objects (`undefined` otherwise). -/
def fieldOf : JsVal → String → JsVal
  | .obj fs, key => lookupField fs key
  | _, _ => .undefined

/-- JS truthiness: `undefined`, `null`, `false`, `0`, `""` are falsy;
every other value — including empty arrays and empty objects — is
truthy. -/
def truthy : JsVal → Bool
  | .undefined => false
  | .null => false
  | .bool b => b
  | .num n => n != 0
  | .str s => s ≠ ""
  | .arr _ => true
  | .obj _ => true

/-- JS `a || b`. -/
def jsOr (a b : JsVal) : JsVal := if truthy a then a else b

/-- `Array.isArray`. -/
def isArray : JsVal → Bool
  | .arr _ => true
  | _ => false

/-- `typeof v === 'string'`. -/
def isString : JsVal → Bool
  | .str _ => true
  | _ => false

/-- Strict equality `v === "lit"` against a string literal: true exactly
for the equal string (no coercion, objects compare by reference). -/
def strEq (v : JsVal) (lit : String) : Bool :=
  match v with
  | .str s => s = lit
  | _ => false

mutual

/-- JS `String(v)` conversion: `"[object Object]"` for plain objects,
`Array.prototype.join(",")` for arrays (with `null`/`undefined` elements
rendered empty), standard renderings otherwise. -/
def jsToString : JsVal → String
  | .undefined => "undefined"
  | .null => "null"
  | .bool b => if b then "true" else "false"
  | .num n => toString n
  | .str s => s
  | .arr xs => joinElems xs
  | .obj _ => "[object Object]"

/-- Elements of an array as `Array.prototype.toString` renders them,
comma-separated. -/
def joinElems : List JsVal → String
  | [] => ""
  | [x] => elemStr x
  | x :: rest => elemStr x ++ "," ++ joinElems rest

/-- One array element inside a join: `null` and `undefined` render as the
empty string. -/
def elemStr : JsVal → String
  | .null => ""
  | .undefined => ""
  | v => jsToString v

end

/-- `ToPrimitive` as it applies here: arrays and plain objects convert to
their string rendering, primitives are themselves. -/
def jsToPrim : JsVal → JsVal
  | .arr xs => .str (jsToString (.arr xs))
  | .obj fs => .str (jsToString (.obj fs))
  | v => v

/-- Integer reading of a trimmed numeric string (`ToNumber` on strings,
restricted to the optional-sign integer forms that can arise here);
`none` models `NaN`.  The empty or all-blank string reads as `0`. -/
def strToIntOpt (s : String) : Option Int :=
  let t := s.trim
  if t = "" then some 0
  else
    match t.toList with
    | '-' :: ds => (String.mk ds).toNat?.map (fun n => -(n : Int))
    | '+' :: ds => (String.mk ds).toNat?.map (fun n => (n : Int))
    | _ => t.toNat?.map (fun n => (n : Int))

/-- `ToNumber`, `none` for `NaN`. -/
def jsToNumOpt (v : JsVal) : Option Int :=
  match jsToPrim v with
  | .num n => some n
  | .bool b => some (if b then 1 else 0)
  | .null => some 0
  | .undefined => none
  | .str s => strToIntOpt s
  | .arr _ => none
  | .obj _ => none

/-- JS `v > 0` (used to derive a status from a computed count): numeric
coercion, false when the coercion is `NaN`. -/
def gtZero (v : JsVal) : Bool :=
  match jsToNumOpt v with
  | some n => n > 0
  | none => false

/-- JS `a + b` on the values reachable in the availability fold: if
either operand is (or converts to) a string, concatenation; otherwise
numeric addition.  `NaN`-producing operands (bare `undefined`) cannot
reach this fold, and are read as `0`. -/
def jsAdd (a b : JsVal) : JsVal :=
  match jsToPrim a, jsToPrim b with
  | .str s, pb => .str (s ++ jsToString pb)
  | pa, .str s => .str (jsToString pa ++ s)
  | pa, pb => .num ((jsToNumOpt pa).getD 0 + (jsToNumOpt pb).getD 0)

/-- JS `v[0]` under optional chaining (`record.publicationDates?.[0]`):
first element of an array, first character of a string, the `"0"` field
of an object, `undefined` otherwise. -/
def index0 : JsVal → JsVal
  | .null => .undefined
  | .undefined => .undefined
  | .arr [] => .undefined
  | .arr (x :: _) => x
  | .str s => if s = "" then .undefined else .str (s.take 1)
  | .obj fs => lookupField fs "0"
  | _ => .undefined

/-- The element list of an array (only ever applied under an
`Array.isArray` test or after an explicit wrap). -/
def asElems : JsVal → List JsVal
  | .arr xs => xs
  | _ => []

/-- JS `xs[0]` on a JS array held as a Lean list: `undefined` when
empty. -/
def headVal : List JsVal → JsVal
  | [] => .undefined
  | x :: _ => x

end JsVal

namespace Finna

open JsVal

/-- The chain `record.k1 || record.k2 || ... || dflt` over plain property
accesses, with JS short-circuiting (later keys are only read when every
earlier value is falsy). -/
def orKeys (record : JsVal) : List String → JsVal → Option JsVal
  | [], dflt => pure dflt
  | k :: rest, dflt => do
    let v ← jsGet record k
    if truthy v then pure v else orKeys record rest dflt

/-- A JS `Array.prototype.map` whose callback may throw: `none` as soon
as one element faults. -/
def optMap (f : JsVal → Option JsVal) : List JsVal → Option (List JsVal)
  | [] => some []
  | x :: xs => do
    let y ← f x
    let ys ← optMap f xs
    pure (y :: ys)

/-- Element coercion in the `authors` map of `transformRecord`:
`typeof a === 'string' ? a : a.name || a.fullname || String(a)`. -/
def authorElem (a : JsVal) : Option JsVal :=
  if isString a then some a
  else do
    let n ← jsGet a "name"
    if truthy n then pure n
    else
      let fn ← jsGet a "fullname"
      if truthy fn then pure fn
      else pure (.str (jsToString a))

/-- The `authors` block of `transformRecord`: prefer `primaryAuthors`
when it is an array (taken as-is), else coerce `authors`. -/
def authorsOf (record : JsVal) : Option (List JsVal) := do
  let pa ← jsGet record "primaryAuthors"
  if truthy pa && isArray pa then
    pure (asElems pa)
  else
    let au ← jsGet record "authors"
    if truthy au then
      if isArray au then
        optMap authorElem (asElems au)
      else if isString au then
        pure [au]
      else
        pure []
    else
      pure []

/-- Element coercion in the `images` map:
`typeof img === 'string' ? img : img.url || img.medium || img.small || String(img)`. -/
def imageElem (img : JsVal) : Option JsVal :=
  if isString img then some img
  else do
    let u ← jsGet img "url"
    if truthy u then pure u
    else
      let m ← jsGet img "medium"
      if truthy m then pure m
      else
        let s ← jsGet img "small"
        if truthy s then pure s
        else pure (.str (jsToString img))

/-- The `images` block of `transformRecord`. -/
def imagesOf (record : JsVal) : Option (List JsVal) := do
  let im ← jsGet record "images"
  if truthy im then
    if isArray im then
      optMap imageElem (asElems im)
    else if isString im then
      pure [im]
    else
      pure []
  else
    pure []

/-- Element coercion in the `formats` map: a string stays, else
`translated`, else `value`, else `String(f)`. -/
def formatElem (f : JsVal) : Option JsVal :=
  if isString f then some f
  else do
    let t ← jsGet f "translated"
    if truthy t then pure t
    else
      let v ← jsGet f "value"
      if truthy v then pure v
      else pure (.str (jsToString f))

/-- The `formats` block of `transformRecord`: a non-array value is
wrapped before the per-element map. -/
def formatsOf (record : JsVal) : Option (List JsVal) := do
  let fm ← jsGet record "formats"
  if truthy fm then
    optMap formatElem (if isArray fm then asElems fm else [fm])
  else
    pure []

/-- The `publishers` block of `transformRecord`: wrap-to-array only, no
per-element coercion. -/
def publishersOf (record : JsVal) : Option (List JsVal) := do
  let p ← jsGet record "publishers"
  if truthy p then
    pure (if isArray p then asElems p else [p])
  else
    pure []

/-- The `descriptions` block of `transformRecord`: `summaries` first,
falling back to `description`, each wrapped to an array. -/
def descriptionsOf (record : JsVal) : Option (List JsVal) := do
  let sm ← jsGet record "summaries"
  if truthy sm then
    pure (if isArray sm then asElems sm else [sm])
  else
    let d ← jsGet record "description"
    if truthy d then
      pure (if isArray d then asElems d else [d])
    else
      pure []

/-- The `languages` block of `transformRecord`. -/
def languagesOf (record : JsVal) : Option (List JsVal) := do
  let l ← jsGet record "languages"
  if truthy l then
    pure (if isArray l then asElems l else [l])
  else
    pure []

/-- The `year` field:
`record.year || record.publicationYear || record.publicationDates?.[0] || ''`. -/
def yearOf (record : JsVal) : Option JsVal := do
  let y ← jsGet record "year"
  if truthy y then pure y
  else
    let py ← jsGet record "publicationYear"
    if truthy py then pure py
    else
      let pd ← jsGet record "publicationDates"
      pure (jsOr (index0 pd) (.str ""))

/-- The `url` field:
`record.url || record.recordPage || record.links?.recordPage || ''`. -/
def urlOf (record : JsVal) : Option JsVal := do
  let u ← jsGet record "url"
  if truthy u then pure u
  else
    let rp ← jsGet record "recordPage"
    if truthy rp then pure rp
    else
      let links ← jsGet record "links"
      pure (jsOr (jsGetQ links "recordPage") (.str ""))

/-- The sixteen fields of the object literal `transformRecord` returns,
in source order, from the already-computed pieces. -/
def recordFields (idv title : JsVal) (authors : List JsVal)
    (rawAuthors year : JsVal) (images : List JsVal) (rawImage : JsVal)
    (formats publishers : List JsVal) (rawPublisher : JsVal)
    (descriptions : List JsVal) (rawDescription : JsVal)
    (languages : List JsVal) (url : JsVal) : List (String × JsVal) :=
  ("id", idv) ::
  ("title", title) ::
  ("authors", JsVal.arr authors) ::
  ("author", jsOr (headVal authors) (jsOr rawAuthors (JsVal.str ""))) ::
  ("year", year) ::
  ("images", JsVal.arr images) ::
  ("image", jsOr (headVal images) (jsOr rawImage (JsVal.str ""))) ::
  ("formats", JsVal.arr formats) ::
  ("format", JsVal.arr formats) ::
  ("publishers", JsVal.arr publishers) ::
  ("publisher", jsOr (headVal publishers) (jsOr rawPublisher (JsVal.str ""))) ::
  ("descriptions", JsVal.arr descriptions) ::
  ("description", jsOr (headVal descriptions) (jsOr rawDescription (JsVal.str ""))) ::
  ("languages", JsVal.arr languages) ::
  ("language", JsVal.arr languages) ::
  ("url", url) :: []

/-- The computation of `transformRecord`'s object as a field list.
`none` models a thrown `TypeError` (property access on a
`null`/`undefined` receiver).  The raw-key reads feeding the singular
convenience fields (`record.authors`, `record.image`, …) are hoisted
next to their use; on any input reaching them the receiver is already
known non-nullish, so the hoisting preserves both the result and the
fault behaviour. -/
def transformFields (record : JsVal) : Option (List (String × JsVal)) := do
  let authors ← authorsOf record
  let images ← imagesOf record
  let formats ← formatsOf record
  let publishers ← publishersOf record
  let descriptions ← descriptionsOf record
  let languages ← languagesOf record
  let idv ← orKeys record ["id", "recordId", "@id"] (.str "")
  let title ← orKeys record ["title", "titleFull", "titleMain"] (.str "")
  let rawAuthors ← jsGet record "authors"
  let year ← yearOf record
  let rawImage ← jsGet record "image"
  let rawPublisher ← jsGet record "publisher"
  let rawDescription ← jsGet record "description"
  let url ← urlOf record
  pure (recordFields idv title authors rawAuthors year images rawImage
    formats publishers rawPublisher descriptions rawDescription languages url)

/-- `transformRecord` of `src/services/finnaApi.ts`: the returned object. -/
def transformRecord (record : JsVal) : Option JsVal :=
  (transformFields record).map JsVal.obj

/-- `value !== undefined`. -/
def notUndefined : JsVal → Bool
  | .undefined => false
  | _ => true

/-- Per-holding location name in `extractAvailability`:
`h.location || h.branch || h.building || h.name || 'Unknown'`. -/
def holdingLocation (h : JsVal) : Option JsVal :=
  orKeys h ["location", "branch", "building", "name"] (.str "Unknown")

/-- Per-holding available count in `extractAvailability`:
`h.available || (h.availability === 'available' || h.status === 'available' ? 1 : 0)`.
(`h.status` is read eagerly here; `h` is already known non-nullish, so
this matches the short-circuiting source.) -/
def holdingAvailable (h : JsVal) : Option JsVal := do
  let av ← jsGet h "available"
  if truthy av then pure av
  else
    let avl ← jsGet h "availability"
    let st ← jsGet h "status"
    pure (if strEq avl "available" || strEq st "available" then .num 1 else .num 0)

/-- Per-holding total count: `h.total || h.count || 1`. -/
def holdingTotal (h : JsVal) : Option JsVal :=
  orKeys h ["total", "count"] (.num 1)

/-- Per-holding status:
`h.status || h.availability || (availableCount > 0 ? 'available' : 'unavailable')`. -/
def holdingStatus (h : JsVal) (availableCount : JsVal) : Option JsVal := do
  let st ← jsGet h "status"
  if truthy st then pure st
  else
    let avl ← jsGet h "availability"
    if truthy avl then pure avl
    else pure (.str (if gtZero availableCount then "available" else "unavailable"))

/-- The five fields of each pushed locations entry, in source order. -/
def locationFields (locName ac cn dd st : JsVal) : List (String × JsVal) :=
  ("location", locName) :: ("available", ac) :: ("callNumber", cn) ::
  ("dueDate", dd) :: ("status", st) :: []

/-- The `holdings.forEach` accumulation of `extractAvailability`:
threads the running `available`/`total` sums (JS `+=`) and collects the
pushed locations entries in order. -/
def availLoop : List JsVal → JsVal → JsVal → Option (JsVal × JsVal × List JsVal)
  | [], avail, total => some (avail, total, [])
  | h :: rest, avail, total => do
    let locName ← holdingLocation h
    let ac ← holdingAvailable h
    let tc ← holdingTotal h
    let cn ← orKeys h ["callNumber", "callnumber", "shelfMark"] (.str "")
    let dd ← orKeys h ["dueDate", "duedate", "nextAvailableDate"] (.str "")
    let st ← holdingStatus h ac
    let (a, t, locs) ← availLoop rest (jsAdd avail ac) (jsAdd total tc)
    some (a, t, JsVal.obj (locationFields locName ac cn dd st) :: locs)

/-- The three-key holdings source of `extractAvailability`: the first
truthy of `holdings`, `availability`, `buildings`, coerced to an array;
`[]` when none is truthy. -/
def holdingsSource (data : JsVal) : Option (List JsVal) := do
  let hd ← jsGet data "holdings"
  if truthy hd then pure (if isArray hd then asElems hd else [hd])
  else
    let av ← jsGet data "availability"
    if truthy av then pure (if isArray av then asElems av else [av])
    else
      let bd ← jsGet data "buildings"
      if truthy bd then pure (if isArray bd then asElems bd else [bd])
      else pure []

/-- `extractAvailability` of `src/services/finnaApi.ts`.  Yields the
availability object, or JS `null` when no holdings-bearing key and no
top-level count is present. -/
def extractAvailability (data : JsVal) : Option JsVal := do
  let hs ← holdingsSource data
  if hs.length > 0 then
    let (a, t, locs) ← availLoop hs (.num 0) (.num 0)
    pure (.obj (("available", a) :: ("total", t) :: ("locations", .arr locs) :: []))
  else
    let ac ← jsGet data "availableCount"
    let tc ← jsGet data "totalCount"
    if notUndefined ac || notUndefined tc then
      pure (.obj (("available", jsOr ac (.num 0)) :: ("total", jsOr tc (.num 0)) ::
        ("locations", .arr []) :: []))
    else
      pure .null

/-- `extractHoldings` of `src/services/finnaApi.ts`. -/
def extractHoldings (data : JsVal) : Option (List JsVal) := do
  let hd ← jsGet data "holdings"
  if !(truthy hd) then pure []
  else
    optMap (fun h => do
      let loc ← orKeys h ["location", "branch"] (.str "")
      let cn ← orKeys h ["callNumber", "callnumber"] (.str "")
      let st ← orKeys h ["status", "availability"] (.str "unknown")
      let dd ← orKeys h ["dueDate", "duedate"] (.str "")
      pure (JsVal.obj (("location", loc) :: ("callNumber", cn) :: ("status", st) ::
        ("dueDate", dd) :: []))) (if isArray hd then asElems hd else [hd])

/-- The two failures `getBookDetails` can raise after the fetch:
the explicit `Error('Invalid book data received from API')` and a
`TypeError` from property access on `null`/`undefined`. -/
inductive ApiError where
  | invalidData
  | typeError

/-- Lift a possibly-faulting computation into the error monad of
`getBookDetails`. -/
def ofOption : Option α → Except ApiError α
  | some a => .ok a
  | none => .error .typeError

/-- The response-structure decision of `getBookDetails` (the Envelope
Resolver): a non-empty `records` array yields its first element; else a
truthy `id`/`recordId`/`"@id"` on the payload yields the payload itself;
else `Error('Invalid book data received from API')`. -/
def resolveEnvelope (responseData : JsVal) : Except ApiError JsVal := do
  let recs ← ofOption (jsGet responseData "records")
  if truthy recs && isArray recs && (asElems recs).length > 0 then
    pure (headVal (asElems recs))
  else
    let a ← ofOption (jsGet responseData "id")
    if truthy a then pure responseData
    else
      let b ← ofOption (jsGet responseData "recordId")
      if truthy b then pure responseData
      else
        let c ← ofOption (jsGet responseData "@id")
        if truthy c then pure responseData
        else throw .invalidData

/-- The follow-up validity check of `getBookDetails`:
`if (!data || (!data.id && !data.recordId && !data['@id'])) throw ...`. -/
def checkIdentifiable (data : JsVal) : Except ApiError JsVal := do
  if !(truthy data) then throw .invalidData
  else
    let a ← ofOption (jsGet data "id")
    if truthy a then pure data
    else
      let b ← ofOption (jsGet data "recordId")
      if truthy b then pure data
      else
        let c ← ofOption (jsGet data "@id")
        if truthy c then pure data
        else throw .invalidData

/-- The repeated primary/secondary coercion of the Detail Extender:
`data.k1 ? toArray(data.k1) : data.k2 ? toArray(data.k2) : []`. -/
def coercePair (data : JsVal) (k1 k2 : String) : Option (List JsVal) := do
  let v1 ← jsGet data k1
  if truthy v1 then pure (if isArray v1 then asElems v1 else [v1])
  else
    let v2 ← jsGet data k2
    if truthy v2 then pure (if isArray v2 then asElems v2 else [v2])
    else pure []

/-- Element coercion in the `series` maps: a string stays, else `s.name`
when truthy, else `String(s)`. -/
def seriesElem (s : JsVal) : Option JsVal :=
  if isString s then some s
  else do
    let n ← jsGet s "name"
    if truthy n then pure n else pure (.str (jsToString s))

/-- The `series` block of `getBookDetails`: `series` first, else
`seriesNames`, each wrapped to an array and mapped over `seriesElem`. -/
def seriesOf (data : JsVal) : Option (List JsVal) := do
  let s ← jsGet data "series"
  if truthy s then
    optMap seriesElem (if isArray s then asElems s else [s])
  else
    let sn ← jsGet data "seriesNames"
    if truthy sn then
      optMap seriesElem (if isArray sn then asElems sn else [sn])
    else
      pure []

/-- The `summary` field of the detail object:
`data.summaries || (data.summary ? [data.summary] : [])` — note that a
truthy non-array `summaries` value passes through unwrapped. -/
def summaryOf (data : JsVal) : Option JsVal := do
  let sm ← jsGet data "summaries"
  if truthy sm then pure sm
  else
    let s ← jsGet data "summary"
    if truthy s then pure (.arr [s]) else pure (.arr [])

/-- Assignment to a field of an object held as a field list
(`transformedRecord.title = ...`). -/
def objSet : List (String × JsVal) → String → JsVal → List (String × JsVal)
  | [], key, v => [(key, v)]
  | (k, w) :: rest, key, v =>
    if k = key then (k, v) :: rest else (k, w) :: objSet rest key v

/-- The ten detail-only fields of the `bookDetail` literal, in source
order (they follow the spread of the transformed record). -/
def detailExtras (avail : JsVal) (holds : List JsVal) (summary : JsVal)
    (subjects toc isbn issn pds series genres : List JsVal) :
    List (String × JsVal) :=
  ("availability", avail) :: ("holdings", JsVal.arr holds) ::
  ("summary", summary) :: ("subjects", JsVal.arr subjects) ::
  ("tableOfContents", JsVal.arr toc) :: ("isbn", JsVal.arr isbn) ::
  ("issn", JsVal.arr issn) :: ("physicalDescriptions", JsVal.arr pds) ::
  ("series", JsVal.arr series) :: ("genres", JsVal.arr genres) :: []

/-- The in-memory part of `getBookDetails`, from the decoded response
payload to the returned `bookDetail` object: envelope resolution, the
identifiability check, `transformRecord`, the title fallback, the
detail-only coercions, and the final object literal with its spread. -/
def getBookDetailsCore (responseData : JsVal) : Except ApiError JsVal := do
  let data ← resolveEnvelope responseData
  let data ← checkIdentifiable data
  let trFields ← ofOption (transformFields data)
  let trFields ←
    if !(truthy (lookupField trFields "title")) then do
      let t ← ofOption (orKeys data ["title", "titleFull", "titleMain"] (.str "Untitled"))
      pure (objSet trFields "title" t)
    else
      pure trFields
  let subjects ← ofOption (coercePair data "subjects" "subject")
  let toc ← ofOption (coercePair data "tableOfContents" "contents")
  let isbn ← ofOption (coercePair data "isbn" "isbns")
  let issn ← ofOption (coercePair data "issn" "issns")
  let pds ← ofOption (coercePair data "physicalDescriptions" "physicalDescription")
  let series ← ofOption (seriesOf data)
  let genres ← ofOption (coercePair data "genres" "genre")
  let avail ← ofOption (extractAvailability data)
  let holds ← ofOption (extractHoldings data)
  let summary ← ofOption (summaryOf data)
  pure (JsVal.obj (trFields ++
    detailExtras avail holds summary subjects toc isbn issn pds series genres))

/-- A value on which property access throws: `null` or `undefined`. -/
def isNullish : JsVal → Bool
  | .null => true
  | .undefined => true
  | _ => false

end Finna

/-! ## Basic lemmas about the JS value model -/

namespace JsVal

@[simp] lemma jsGet_obj (fs : List (String × JsVal)) (k : String) :
    jsGet (.obj fs) k = some (lookupField fs k) := rfl

lemma jsGet_eq_some {v : JsVal} {k : String} {w : JsVal}
    (h : jsGet v k = some w) : jsGetQ v k = w := by
  cases v <;> simp [jsGet, jsGetQ] at h ⊢ <;> exact h

lemma jsGet_of_jsGet {v : JsVal} {k : String} {w : JsVal}
    (h : jsGet v k = some w) (k' : String) :
    jsGet v k' = some (jsGetQ v k') := by
  cases v <;> simp [jsGet, jsGetQ] at h ⊢

lemma jsGet_of_truthy {v : JsVal} (h : truthy v = true) (k : String) :
    jsGet v k = some (jsGetQ v k) := by
  cases v <;> simp [truthy, jsGet, jsGetQ] at h ⊢

lemma truthy_jsOr_default {a : JsVal} {s : String} :
    truthy (jsOr a (.str s)) = true ∨ jsOr a (.str s) = .str s := by
  by_cases h : truthy a = true
  · left; simp [jsOr, h]
  · right; simp [jsOr, h]

@[simp] lemma jsOr_of_truthy {a b : JsVal} (h : truthy a = true) :
    jsOr a b = a := by simp [jsOr, h]

@[simp] lemma jsOr_of_falsy {a b : JsVal} (h : truthy a = false) :
    jsOr a b = b := by simp [jsOr, h]

end JsVal

namespace Finna

open JsVal

lemma bind_some_eq {α β : Type} (a : α) (f : α → Option β) :
    (some a >>= f) = f a := rfl

lemma option_bind_eq_some {α β : Type} {e : Option α} {f : α → Option β} {b : β} :
    (e >>= f) = some b ↔ ∃ a, e = some a ∧ f a = some b := by
  cases e <;> simp

lemma except_bind_eq_ok {α β : Type} {e : Except ApiError α}
    {f : α → Except ApiError β} {b : β} :
    (e >>= f) = .ok b ↔ ∃ a, e = .ok a ∧ f a = .ok b := by
  cases e <;> simp [Bind.bind, Except.bind]

lemma ofOption_eq_ok {α : Type} {e : Option α} {a : α} :
    ofOption e = .ok a ↔ e = some a := by
  cases e <;> simp [ofOption]

/-- `orKeys` never faults on a receiver that some property access has
already succeeded on. -/
lemma orKeys_isSome {record : JsVal} (h : isNullish record = false) :
    ∀ (ks : List String) (dflt : JsVal), (orKeys record ks dflt).isSome = true := by
  intro ks
  induction ks with
  | nil => intro dflt; simp [orKeys]
  | cons k rest ih =>
    intro dflt
    have hg : jsGet record k = some (jsGetQ record k) := by
      cases record <;> simp [isNullish] at h <;> simp [jsGet, jsGetQ]
    rw [orKeys, hg, bind_some_eq]
    by_cases ht : truthy (jsGetQ record k) = true
    · rw [if_pos ht]; simp [pure]
    · rw [if_neg ht]; exact ih dflt

/-- The value `orKeys` yields is truthy or the default. -/
lemma orKeys_spec {record v dflt : JsVal} :
    ∀ {ks : List String}, orKeys record ks dflt = some v →
      truthy v = true ∨ v = dflt := by
  intro ks
  induction ks with
  | nil => intro h; right; simpa [orKeys, pure] using h.symm
  | cons k rest ih =>
    intro h
    rw [orKeys] at h
    cases hg : jsGet record k with
    | none => rw [hg] at h; simp at h
    | some w =>
      rw [hg, bind_some_eq] at h
      by_cases ht : truthy w = true
      · rw [if_pos ht] at h
        obtain rfl : w = v := by simpa [pure] using h
        exact Or.inl ht
      · rw [if_neg ht] at h
        exact ih h

/-- When every key reads falsy, `orKeys` yields the default. -/
lemma orKeys_all_falsy {record : JsVal} (dflt : JsVal) (hnn : isNullish record = false) :
    ∀ {ks : List String}, (∀ k ∈ ks, truthy (jsGetQ record k) = false) →
      orKeys record ks dflt = some dflt := by
  intro ks
  induction ks with
  | nil => intro _; simp [orKeys, pure]
  | cons k rest ih =>
    intro h
    have hg : jsGet record k = some (jsGetQ record k) := by
      cases record <;> simp [isNullish] at hnn <;> simp [jsGet, jsGetQ]
    have hk : truthy (jsGetQ record k) = false := h k (by simp)
    rw [orKeys, hg, bind_some_eq, if_neg (by simp [hk])]
    exact ih (fun k' hk' => h k' (by simp [hk']))

/-- Inversion of `transformFields`: a successful run determines every
block's value and the shape of the resulting field list. -/
lemma transformFields_inv {r : JsVal} {fs : List (String × JsVal)}
    (h : transformFields r = some fs) :
    ∃ authors images formats publishers descriptions languages
      idv title rawAuthors year rawImage rawPublisher rawDescription url,
      authorsOf r = some authors ∧ imagesOf r = some images ∧
      formatsOf r = some formats ∧ publishersOf r = some publishers ∧
      descriptionsOf r = some descriptions ∧ languagesOf r = some languages ∧
      orKeys r ["id", "recordId", "@id"] (.str "") = some idv ∧
      orKeys r ["title", "titleFull", "titleMain"] (.str "") = some title ∧
      jsGet r "authors" = some rawAuthors ∧ yearOf r = some year ∧
      jsGet r "image" = some rawImage ∧ jsGet r "publisher" = some rawPublisher ∧
      jsGet r "description" = some rawDescription ∧ urlOf r = some url ∧
      fs = recordFields idv title authors rawAuthors year images rawImage
        formats publishers rawPublisher descriptions rawDescription languages url := by
  rw [transformFields] at h
  simp only [option_bind_eq_some, pure, Option.some.injEq] at h
  obtain ⟨authors, ha, images, hi, formats, hf, publishers, hp, descriptions, hd,
    languages, hl, idv, hid, title, ht, rawAuthors, hra, year, hy, rawImage, hri,
    rawPublisher, hrp, rawDescription, hrd, url, hu, hfs⟩ := h
  exact ⟨authors, images, formats, publishers, descriptions, languages, idv, title,
    rawAuthors, year, rawImage, rawPublisher, rawDescription, url,
    ha, hi, hf, hp, hd, hl, hid, ht, hra, hy, hri, hrp, hrd, hu, hfs.symm⟩

/-- Inversion of `transformRecord`: the output object's shape. -/
lemma transformRecord_inv {r o : JsVal} (h : transformRecord r = some o) :
    ∃ authors images formats publishers descriptions languages
      idv title rawAuthors year rawImage rawPublisher rawDescription url,
      authorsOf r = some authors ∧ imagesOf r = some images ∧
      formatsOf r = some formats ∧ publishersOf r = some publishers ∧
      descriptionsOf r = some descriptions ∧ languagesOf r = some languages ∧
      orKeys r ["id", "recordId", "@id"] (.str "") = some idv ∧
      orKeys r ["title", "titleFull", "titleMain"] (.str "") = some title ∧
      jsGet r "authors" = some rawAuthors ∧ yearOf r = some year ∧
      jsGet r "image" = some rawImage ∧ jsGet r "publisher" = some rawPublisher ∧
      jsGet r "description" = some rawDescription ∧ urlOf r = some url ∧
      o = .obj (recordFields idv title authors rawAuthors year images rawImage
        formats publishers rawPublisher descriptions rawDescription languages url) := by
  rw [transformRecord] at h
  obtain ⟨fs, hfs, ho⟩ := Option.map_eq_some'.mp h
  subst ho
  obtain ⟨authors, images, formats, publishers, descriptions, languages, idv, title,
    rawAuthors, year, rawImage, rawPublisher, rawDescription, url,
    ha, hi, hf, hp, hd, hl, hid, ht, hra, hy, hri, hrp, hrd, hu, hfs'⟩ :=
    transformFields_inv hfs
  subst hfs'
  exact ⟨authors, images, formats, publishers, descriptions, languages, idv, title,
    rawAuthors, year, rawImage, rawPublisher, rawDescription, url,
    ha, hi, hf, hp, hd, hl, hid, ht, hra, hy, hri, hrp, hrd, hu, rfl⟩

/-! ## C9: singular convenience fields -/

/-- C9 counterexample: the claim says each singular convenience field is
the first element of its plural counterpart, but `format` (and
`language`) are assigned the *whole* plural array.  On the input
`{ formats: ["a", "b"] }` the normalized `format` field is the two-element
array, not its first element `"a"`. -/
theorem C9_counterexample :
    ((transformRecord (.obj [("formats", .arr [.str "a", .str "b"])])).map
      (fun o => (fieldOf o "formats", fieldOf o "format"))) =
      some (.arr [.str "a", .str "b"], .arr [.str "a", .str "b"]) ∧
    JsVal.arr [.str "a", .str "b"] ≠ .str "a" :=
  ⟨rfl, fun h => nomatch h⟩

/-- C9 (amended): `author`, `image`, `publisher` and `description` equal
the first element of their plural counterpart whenever that first element
is truthy (when it is falsy they fall back to a raw input key, an
independent source); `format` and `language`, however, are the whole
plural sequence, not a first-element projection. -/
theorem C9_singular_projections :
    (∀ r o, transformRecord r = some o →
      fieldOf o "format" = fieldOf o "formats" ∧
      fieldOf o "language" = fieldOf o "languages") ∧
    (∀ r o x xs, transformRecord r = some o →
      fieldOf o "authors" = .arr (x :: xs) → truthy x = true →
      fieldOf o "author" = x) ∧
    (∀ r o x xs, transformRecord r = some o →
      fieldOf o "images" = .arr (x :: xs) → truthy x = true →
      fieldOf o "image" = x) ∧
    (∀ r o x xs, transformRecord r = some o →
      fieldOf o "publishers" = .arr (x :: xs) → truthy x = true →
      fieldOf o "publisher" = x) ∧
    (∀ r o x xs, transformRecord r = some o →
      fieldOf o "descriptions" = .arr (x :: xs) → truthy x = true →
      fieldOf o "description" = x) := by
  refine ⟨?_, ?_, ?_, ?_, ?_⟩
  · intro r o h
    obtain ⟨authors, images, formats, publishers, descriptions, languages, idv, title,
      rawAuthors, year, rawImage, rawPublisher, rawDescription, url,
      _, _, _, _, _, _, _, _, _, _, _, _, _, _, rfl⟩ := transformRecord_inv h
    constructor <;> simp [recordFields, fieldOf, lookupField]
  · intro r o x xs h hx htx
    obtain ⟨authors, images, formats, publishers, descriptions, languages, idv, title,
      rawAuthors, year, rawImage, rawPublisher, rawDescription, url,
      _, _, _, _, _, _, _, _, _, _, _, _, _, _, rfl⟩ := transformRecord_inv h
    simp only [recordFields, fieldOf, lookupField] at hx
    simp only [reduceIte, String.reduceEq] at hx
    obtain rfl : authors = x :: xs := by
      injection hx
    simp [recordFields, fieldOf, lookupField, headVal, jsOr, htx]
  · intro r o x xs h hx htx
    obtain ⟨authors, images, formats, publishers, descriptions, languages, idv, title,
      rawAuthors, year, rawImage, rawPublisher, rawDescription, url,
      _, _, _, _, _, _, _, _, _, _, _, _, _, _, rfl⟩ := transformRecord_inv h
    simp only [recordFields, fieldOf, lookupField] at hx
    simp only [reduceIte, String.reduceEq] at hx
    obtain rfl : images = x :: xs := by
      injection hx
    simp [recordFields, fieldOf, lookupField, headVal, jsOr, htx]
  · intro r o x xs h hx htx
    obtain ⟨authors, images, formats, publishers, descriptions, languages, idv, title,
      rawAuthors, year, rawImage, rawPublisher, rawDescription, url,
      _, _, _, _, _, _, _, _, _, _, _, _, _, _, rfl⟩ := transformRecord_inv h
    simp only [recordFields, fieldOf, lookupField] at hx
    simp only [reduceIte, String.reduceEq] at hx
    obtain rfl : publishers = x :: xs := by
      injection hx
    simp [recordFields, fieldOf, lookupField, headVal, jsOr, htx]
  · intro r o x xs h hx htx
    obtain ⟨authors, images, formats, publishers, descriptions, languages, idv, title,
      rawAuthors, year, rawImage, rawPublisher, rawDescription, url,
      _, _, _, _, _, _, _, _, _, _, _, _, _, _, rfl⟩ := transformRecord_inv h
    simp only [recordFields, fieldOf, lookupField] at hx
    simp only [reduceIte, String.reduceEq] at hx
    obtain rfl : descriptions = x :: xs := by
      injection hx
    simp [recordFields, fieldOf, lookupField, headVal, jsOr, htx]

/-! ## C4, C5: the availability extractor -/

/-- The accumulation of the `holdings.forEach` loop: the final
`available`/`total` are the `jsAdd`-folds of the per-holding values over
the starting accumulators, and the pushed locations entries carry exactly
the per-holding available values, in order. -/
lemma availLoop_spec :
    ∀ (hs : List JsVal) (avail total a t : JsVal) (locs : List JsVal),
      availLoop hs avail total = some (a, t, locs) →
      ∃ avs tvs : List JsVal,
        optMap holdingAvailable hs = some avs ∧
        optMap holdingTotal hs = some tvs ∧
        a = avs.foldl jsAdd avail ∧
        t = tvs.foldl jsAdd total ∧
        locs.map (fun l => fieldOf l "available") = avs := by
  intro hs
  induction hs with
  | nil =>
    intro avail total a t locs h
    rw [availLoop] at h
    obtain ⟨rfl, rfl, rfl⟩ : avail = a ∧ total = t ∧ ([] : List JsVal) = locs := by
      simpa using h
    exact ⟨[], [], rfl, rfl, by simp, by simp, rfl⟩
  | cons hd rest ih =>
    intro avail total a t locs h
    rw [availLoop] at h
    simp only [option_bind_eq_some, Option.some.injEq] at h
    obtain ⟨locName, h1, ac, h2, tc, h3, cn, h4, dd, h5, st, h6, x, h7, h8⟩ := h
    obtain ⟨a', t', locs'⟩ := x
    simp only [Prod.mk.injEq] at h8
    obtain ⟨rfl, rfl, rfl⟩ := h8
    obtain ⟨avs, tvs, hm1, hm2, rfl, rfl, hmap⟩ := ih _ _ _ _ _ h7
    refine ⟨ac :: avs, tc :: tvs, ?_, ?_, by simp, by simp, ?_⟩
    · rw [optMap, h2, bind_some_eq, hm1, bind_some_eq]; rfl
    · rw [optMap, h3, bind_some_eq, hm2, bind_some_eq]; rfl
    · simp only [List.map_cons, List.cons.injEq]
      exact ⟨by simp [locationFields, fieldOf, lookupField], hmap⟩

/-- C4 counterexample: the claim says a numeric `available` field is
taken as the per-location count, so a numeric `0` should stay `0` even
with `status: "available"`; the code tests the field's truthiness, so
numeric `0` falls through to the status check and yields `1`. -/
theorem C4_counterexample :
    holdingAvailable (.obj [("available", .num 0), ("status", .str "available")]) =
      some (.num 1) ∧
    JsVal.num 1 ≠ JsVal.num 0 ∧
    extractAvailability (.obj [("holdings",
        .arr [.obj [("available", .num 0), ("status", .str "available")]])]) =
      some (.obj [("available", .num 1), ("total", .num 1), ("locations", .arr
        [.obj [("location", .str "Unknown"), ("available", .num 1),
               ("callNumber", .str ""), ("dueDate", .str ""),
               ("status", .str "available")]])]) := by
  refine ⟨rfl, by simp, rfl⟩

/-- C4 (amended): the per-location available count is the holding's
`available` field whenever that field is *truthy* (in particular any
non-zero number), and otherwise — including a numeric `available` of 0 —
it is 1 when `availability` or `status` equals `"available"` and 0
otherwise; the locations entry pushed for the holding carries exactly
this count. -/
theorem C4_per_location_available (h av avl st : JsVal)
    (hav : jsGet h "available" = some av)
    (havl : jsGet h "availability" = some avl)
    (hst : jsGet h "status" = some st) :
    holdingAvailable h = some (if truthy av then av
      else if strEq avl "available" || strEq st "available" then .num 1 else .num 0) ∧
    ∀ rest avail total a t loc locs,
      availLoop (h :: rest) avail total = some (a, t, loc :: locs) →
      fieldOf loc "available" = (if truthy av then av
        else if strEq avl "available" || strEq st "available" then .num 1 else .num 0) := by
  have hmain : holdingAvailable h = some (if truthy av then av
      else if strEq avl "available" || strEq st "available" then .num 1 else .num 0) := by
    rw [holdingAvailable, hav, bind_some_eq]
    by_cases htr : truthy av = true
    · rw [if_pos htr, if_pos htr]; rfl
    · have htr' : truthy av = false := by simpa using htr
      simp only [htr', Bool.false_eq_true, if_false]
      rw [havl, bind_some_eq, hst, bind_some_eq]
      rfl
  refine ⟨hmain, ?_⟩
  intro rest avail total a t loc locs hloop
  rw [availLoop] at hloop
  simp only [option_bind_eq_some, Option.some.injEq] at hloop
  obtain ⟨locName, h1, ac, h2, tc, h3, cn, h4, dd, h5, st', h6, x, h7, h8⟩ := hloop
  obtain ⟨a', t', locs'⟩ := x
  simp only [Prod.mk.injEq, List.cons.injEq] at h8
  obtain rfl : loc = JsVal.obj (locationFields locName ac cn dd st') := h8.2.2.1.symm
  obtain rfl : ac = (if truthy av then av
      else if strEq avl "available" || strEq st "available" then .num 1 else .num 0) := by
    rw [hmain] at h2
    exact ((Option.some.injEq _ _).mp h2).symm
  simp [locationFields, fieldOf, lookupField]

/-- C4 witness. -/
theorem C4_per_location_available_witness :
    holdingAvailable (.obj [("available", .num 2)]) = some (.num 2) := by
  have := (C4_per_location_available (.obj [("available", .num 2)])
    (.num 2) .undefined .undefined rfl rfl rfl).1
  simpa using this

/-- Fold of `jsAdd` over numbers is integer summation. -/
lemma foldl_jsAdd_num : ∀ (ns : List Int) (m : Int),
    (ns.map JsVal.num).foldl jsAdd (.num m) = .num (ns.foldl (· + ·) m) := by
  intro ns
  induction ns with
  | nil => intro m; simp
  | cons n rest ih =>
    intro m
    have h : jsAdd (.num m) (.num n) = .num (m + n) := rfl
    simp [h, ih]

/-- C5 (confirmed): whenever the holdings-bearing key yields a non-empty
sequence, the aggregate `available`/`total` are the (JS-addition) sums of
the per-location values across all holdings, the locations entries carry
the matching per-location available counts, such sums over numeric
values are integer sums, and the spec's concrete two-holding payload
yields `available: 2, total: 4` with the two expected entries. -/
theorem C5_aggregate_sums :
    (∀ data hs avs tvs r,
      holdingsSource data = some hs → hs ≠ [] →
      optMap holdingAvailable hs = some avs →
      optMap holdingTotal hs = some tvs →
      extractAvailability data = some r →
      fieldOf r "available" = avs.foldl jsAdd (.num 0) ∧
      fieldOf r "total" = tvs.foldl jsAdd (.num 0) ∧
      (asElems (fieldOf r "locations")).map (fun l => fieldOf l "available") = avs) ∧
    (∀ ns : List Int,
      (ns.map JsVal.num).foldl jsAdd (.num 0) = .num (ns.foldl (· + ·) 0)) ∧
    extractAvailability (.obj [("holdings", .arr
      [.obj [("location", .str "Central"), ("available", .num 2), ("total", .num 3)],
       .obj [("location", .str "North"), ("status", .str "unavailable")]])]) =
      some (.obj [("available", .num 2), ("total", .num 4), ("locations", .arr
        [.obj [("location", .str "Central"), ("available", .num 2),
               ("callNumber", .str ""), ("dueDate", .str ""),
               ("status", .str "available")],
         .obj [("location", .str "North"), ("available", .num 0),
               ("callNumber", .str ""), ("dueDate", .str ""),
               ("status", .str "unavailable")]])]) := by
  refine ⟨?_, fun ns => foldl_jsAdd_num ns 0, rfl⟩
  intro data hs avs tvs r hsrc hne hmav hmtv hex
  rw [extractAvailability, hsrc, bind_some_eq,
    if_pos (List.length_pos.mpr hne)] at hex
  simp only [option_bind_eq_some, Option.some.injEq] at hex
  obtain ⟨x, hloop, hr⟩ := hex
  obtain ⟨a, t, locs⟩ := x
  obtain ⟨avs', tvs', hm1, hm2, rfl, rfl, hmap⟩ := availLoop_spec _ _ _ _ _ _ hloop
  have e1 : avs' = avs := by
    rw [hmav] at hm1
    exact ((Option.some.injEq _ _).mp hm1).symm
  have e2 : tvs' = tvs := by
    rw [hmtv] at hm2
    exact ((Option.some.injEq _ _).mp hm2).symm
  subst e1
  subst e2
  obtain rfl : JsVal.obj [("available", List.foldl jsAdd (.num 0) avs'),
      ("total", List.foldl jsAdd (.num 0) tvs'),
      ("locations", .arr locs)] = r := by
    simpa [pure] using hr
  exact ⟨by simp [fieldOf, lookupField], by simp [fieldOf, lookupField],
    by simpa [fieldOf, lookupField, asElems] using hmap⟩

/-! ## C3, C10: envelope resolution -/

@[simp] lemma ofOption_some {α : Type} (a : α) : ofOption (some a) = .ok a := rfl

lemma except_bind_some_eq {α β : Type} (a : α) (f : α → Except ApiError β) :
    (Except.ok a >>= f) = f a := rfl

lemma except_bind_error_eq {α β : Type} (e : ApiError) (f : α → Except ApiError β) :
    ((Except.error e : Except ApiError α) >>= f) = .error e := rfl

/-- A non-empty `records` array resolves to its first element. -/
lemma resolveEnvelope_records {resp x : JsVal} {xs : List JsVal}
    (h : jsGet resp "records" = some (.arr (x :: xs))) :
    resolveEnvelope resp = .ok x := by
  rw [resolveEnvelope, h, ofOption_some, except_bind_some_eq,
    if_pos (by simp [truthy, isArray, asElems])]
  rfl

/-- With no usable `records` array but a truthy identifier, the payload
itself is the record. -/
lemma resolveEnvelope_bare {resp rv : JsVal}
    (h : jsGet resp "records" = some rv)
    (hcond : (truthy rv && isArray rv && (asElems rv).length > 0) = false)
    (hid : (truthy (jsGetQ resp "id") || truthy (jsGetQ resp "recordId") ||
      truthy (jsGetQ resp "@id")) = true) :
    resolveEnvelope resp = .ok resp := by
  have hnn := jsGet_of_jsGet h
  rw [resolveEnvelope, h, ofOption_some, except_bind_some_eq,
    if_neg (by simp [hcond]), hnn "id", ofOption_some, except_bind_some_eq]
  by_cases h1 : truthy (jsGetQ resp "id") = true
  · rw [if_pos h1]; rfl
  · rw [if_neg h1, hnn "recordId", ofOption_some, except_bind_some_eq]
    by_cases h2 : truthy (jsGetQ resp "recordId") = true
    · rw [if_pos h2]; rfl
    · rw [if_neg h2, hnn "@id", ofOption_some, except_bind_some_eq]
      have h3 : truthy (jsGetQ resp "@id") = true := by
        have h1' : truthy (jsGetQ resp "id") = false := by simpa using h1
        have h2' : truthy (jsGetQ resp "recordId") = false := by simpa using h2
        simpa [h1', h2'] using hid
      rw [if_pos h3]; rfl

/-- With no usable `records` array and no truthy identifier, resolution
fails with the invalid-data error. -/
lemma resolveEnvelope_fail {resp rv : JsVal}
    (h : jsGet resp "records" = some rv)
    (hcond : (truthy rv && isArray rv && (asElems rv).length > 0) = false)
    (h1 : truthy (jsGetQ resp "id") = false)
    (h2 : truthy (jsGetQ resp "recordId") = false)
    (h3 : truthy (jsGetQ resp "@id") = false) :
    resolveEnvelope resp = .error .invalidData := by
  have hnn := jsGet_of_jsGet h
  rw [resolveEnvelope, h, ofOption_some, except_bind_some_eq,
    if_neg (by simp [hcond]), hnn "id", ofOption_some, except_bind_some_eq,
    if_neg (by simp [h1]), hnn "recordId", ofOption_some, except_bind_some_eq,
    if_neg (by simp [h2]), hnn "@id", ofOption_some, except_bind_some_eq,
    if_neg (by simp [h3])]
  rfl

/-- The identifiability check fails on a falsy record and on a record
with no truthy identifier. -/
lemma checkIdentifiable_fail {x : JsVal}
    (hid : truthy x = false ∨
      (truthy (jsGetQ x "id") = false ∧ truthy (jsGetQ x "recordId") = false ∧
        truthy (jsGetQ x "@id") = false)) :
    checkIdentifiable x = .error .invalidData := by
  rw [checkIdentifiable]
  by_cases hx : truthy x = true
  · rw [if_neg (by simp [hx])]
    rcases hid with hx' | ⟨h1, h2, h3⟩
    · rw [hx] at hx'; exact absurd hx' (by simp)
    · have hnn := jsGet_of_truthy hx
      rw [hnn "id", ofOption_some, except_bind_some_eq, if_neg (by simp [h1]),
        hnn "recordId", ofOption_some, except_bind_some_eq, if_neg (by simp [h2]),
        hnn "@id", ofOption_some, except_bind_some_eq, if_neg (by simp [h3])]
      rfl
  · rw [if_pos (by simp [hx])]
    rfl

/-- C3 (confirmed): the resolution order of the Envelope Resolver — a
non-empty `records` sequence yields its first element; otherwise a
payload carrying a (truthy) identifier key `id`/`recordId`/`"@id"` is
itself the record; otherwise, and in particular for the envelope
`{ records: [] }`, resolution fails with the invalid-data error (the
source's `InvalidResponseShape`) before normalization runs.  "Carrying
an identifier key" is formalized as that key reading truthy, which is
the resolver's test. -/
theorem C3_envelope_resolution :
    (∀ (resp x : JsVal) (xs : List JsVal),
      jsGet resp "records" = some (.arr (x :: xs)) →
      resolveEnvelope resp = .ok x) ∧
    (∀ resp rv : JsVal,
      jsGet resp "records" = some rv →
      (truthy rv && isArray rv && (asElems rv).length > 0) = false →
      (truthy (jsGetQ resp "id") || truthy (jsGetQ resp "recordId") ||
        truthy (jsGetQ resp "@id")) = true →
      resolveEnvelope resp = .ok resp) ∧
    (∀ resp rv : JsVal,
      jsGet resp "records" = some rv →
      (truthy rv && isArray rv && (asElems rv).length > 0) = false →
      truthy (jsGetQ resp "id") = false →
      truthy (jsGetQ resp "recordId") = false →
      truthy (jsGetQ resp "@id") = false →
      resolveEnvelope resp = .error .invalidData) ∧
    resolveEnvelope (.obj [("records", .arr [])]) = .error .invalidData ∧
    getBookDetailsCore (.obj [("records", .arr [])]) = .error .invalidData ∧
    resolveEnvelope (.obj [("id", .str "x123")]) = .ok (.obj [("id", .str "x123")]) :=
  ⟨fun _ _ _ h => resolveEnvelope_records h,
   fun _ _ h hc hid => resolveEnvelope_bare h hc hid,
   fun _ _ h hc h1 h2 h3 => resolveEnvelope_fail h hc h1 h2 h3,
   rfl, rfl, rfl⟩

/-- C10 (confirmed): when `records` is a non-empty array whose first
element has no truthy identifier (in particular, carries none of the
identifier keys), `getBookDetails` raises the invalid-data error rather
than normalizing that element. -/
theorem C10_unidentifiable_first_record (resp x : JsVal) (xs : List JsVal)
    (hrec : jsGet resp "records" = some (.arr (x :: xs)))
    (hid : truthy x = false ∨
      (truthy (jsGetQ x "id") = false ∧ truthy (jsGetQ x "recordId") = false ∧
        truthy (jsGetQ x "@id") = false)) :
    getBookDetailsCore resp = .error .invalidData := by
  rw [getBookDetailsCore, resolveEnvelope_records hrec, except_bind_some_eq,
    checkIdentifiable_fail hid, except_bind_error_eq]

/-- C10 witness. -/
theorem C10_unidentifiable_first_record_witness :
    getBookDetailsCore (.obj [("records", .arr [.obj [("title", .str "T")]])]) =
      .error .invalidData :=
  C10_unidentifiable_first_record _ _ []
    rfl (Or.inr ⟨rfl, rfl, rfl⟩)

/-! ## Inversion of a successful detail fetch -/

lemma except_throw_eq {α : Type} (e : ApiError) :
    (throw e : Except ApiError α) = .error e := rfl

/-- `checkIdentifiable` succeeds only on a truthy input, and returns the
input itself. -/
lemma checkIdentifiable_ok {x y : JsVal} (h : checkIdentifiable x = .ok y) :
    y = x ∧ truthy x = true := by
  rw [checkIdentifiable] at h
  by_cases hx : truthy x = true
  · rw [if_neg (by simp [hx])] at h
    have hnn := jsGet_of_truthy hx
    rw [hnn "id", ofOption_some, except_bind_some_eq] at h
    by_cases h1 : truthy (jsGetQ x "id") = true
    · rw [if_pos h1] at h
      exact ⟨(Except.ok.inj h).symm, hx⟩
    · rw [if_neg h1, hnn "recordId", ofOption_some, except_bind_some_eq] at h
      by_cases h2 : truthy (jsGetQ x "recordId") = true
      · rw [if_pos h2] at h
        exact ⟨(Except.ok.inj h).symm, hx⟩
      · rw [if_neg h2, hnn "@id", ofOption_some, except_bind_some_eq] at h
        by_cases h3 : truthy (jsGetQ x "@id") = true
        · rw [if_pos h3] at h
          exact ⟨(Except.ok.inj h).symm, hx⟩
        · rw [if_neg h3, except_throw_eq] at h
          exact absurd h (by simp)
  · rw [if_pos (by simp [hx]), except_throw_eq] at h
    exact absurd h (by simp)

lemma except_pure_eq_ok {α : Type} {a b : α} :
    (pure a : Except ApiError α) = .ok b ↔ a = b := by
  constructor
  · intro h; exact Except.ok.inj h
  · intro h; rw [h]; rfl

/-- Inversion of a successful `getBookDetailsCore` run: the resolved
record, the transformed field list, the possibly-rewritten title, every
detail-only coercion, and the final object. -/
lemma getBookDetailsCore_ok_inv {resp d : JsVal}
    (h : getBookDetailsCore resp = .ok d) :
    ∃ data trF trF2 subjects toc isbn issn pds series genres avail holds summary,
      resolveEnvelope resp = .ok data ∧
      truthy data = true ∧
      transformFields data = some trF ∧
      ((truthy (lookupField trF "title") = true ∧ trF2 = trF) ∨
       (truthy (lookupField trF "title") = false ∧
        ∃ t, orKeys data ["title", "titleFull", "titleMain"] (.str "Untitled") = some t ∧
          trF2 = objSet trF "title" t)) ∧
      coercePair data "subjects" "subject" = some subjects ∧
      coercePair data "tableOfContents" "contents" = some toc ∧
      coercePair data "isbn" "isbns" = some isbn ∧
      coercePair data "issn" "issns" = some issn ∧
      coercePair data "physicalDescriptions" "physicalDescription" = some pds ∧
      seriesOf data = some series ∧
      coercePair data "genres" "genre" = some genres ∧
      extractAvailability data = some avail ∧
      extractHoldings data = some holds ∧
      summaryOf data = some summary ∧
      d = .obj (trF2 ++
        detailExtras avail holds summary subjects toc isbn issn pds series genres) := by
  rw [getBookDetailsCore] at h
  simp only [except_bind_eq_ok, ofOption_eq_ok] at h
  obtain ⟨data, hres, data2, hchk, trF, htrF, h⟩ := h
  obtain ⟨rfl, hdt⟩ := checkIdentifiable_ok hchk
  by_cases hc : truthy (lookupField trF "title") = true
  · rw [if_neg (by simp [hc])] at h
    simp only [except_bind_eq_ok, ofOption_eq_ok, except_pure_eq_ok] at h
    obtain ⟨trF2, htrF2, subjects, hsub, toc, htoc, isbn, hisbn, issn, hissn,
      pds, hpds, series, hser, genres, hgen, avail, hav, holds, hho,
      summary, hsum, hd⟩ := h
    exact ⟨data2, trF, trF2, subjects, toc, isbn, issn, pds, series, genres, avail,
      holds, summary, hres, hdt, htrF, Or.inl ⟨hc, htrF2.symm⟩, hsub, htoc, hisbn,
      hissn, hpds, hser, hgen, hav, hho, hsum, hd.symm⟩
  · rw [if_pos (by simp [hc])] at h
    simp only [except_bind_eq_ok, ofOption_eq_ok, except_pure_eq_ok] at h
    obtain ⟨t, ht, trF2, htrF2, subjects, hsub, toc, htoc, isbn, hisbn, issn, hissn,
      pds, hpds, series, hser, genres, hgen, avail, hav, holds, hho,
      summary, hsum, hd⟩ := h
    exact ⟨data2, trF, trF2, subjects, toc, isbn, issn, pds, series, genres, avail,
      holds, summary, hres, hdt, htrF, Or.inr ⟨by simpa using hc, t, ht, htrF2.symm⟩,
      hsub, htoc, hisbn, hissn, hpds, hser, hgen, hav, hho, hsum, hd.symm⟩

/-! ## C8: the title fallback -/

lemma isNullish_of_truthy {v : JsVal} (h : truthy v = true) :
    isNullish v = false := by
  cases v <;> simp_all [truthy, isNullish]

/-- C8 (confirmed): every successfully returned `CatalogDetail` has a
truthy (in particular non-empty-string) `title`; and when the resolved
record has no truthy title-bearing key (`title`, `titleFull`,
`titleMain`), the final title is the literal placeholder `"Untitled"` —
a missing title is repaired, never raised. -/
theorem C8_title_never_empty (resp d : JsVal) (h : getBookDetailsCore resp = .ok d) :
    (∃ t, jsGet d "title" = some t ∧ truthy t = true) ∧
    (∀ data, resolveEnvelope resp = .ok data →
      truthy (jsGetQ data "title") = false →
      truthy (jsGetQ data "titleFull") = false →
      truthy (jsGetQ data "titleMain") = false →
      jsGet d "title" = some (.str "Untitled")) := by
  obtain ⟨data, trF, trF2, subjects, toc, isbn, issn, pds, series, genres, avail,
    holds, summary, hres, hdt, htrF, hT, _, _, _, _, _, _, _, _, _, _, rfl⟩ :=
    getBookDetailsCore_ok_inv h
  obtain ⟨authors, images, formats, publishers, descriptions, languages, idv, title,
    rawAuthors, year, rawImage, rawPublisher, rawDescription, url,
    _, _, _, _, _, _, _, htit, _, _, _, _, _, _, rfl⟩ := transformFields_inv htrF
  constructor
  · rcases hT with ⟨htr, rfl⟩ | ⟨htr, t, ht, rfl⟩
    · refine ⟨title, ?_, ?_⟩
      · simp [recordFields, detailExtras, jsGet, lookupField]
      · simpa [recordFields, lookupField] using htr
    · refine ⟨t, ?_, ?_⟩
      · simp [recordFields, objSet, detailExtras, jsGet, lookupField]
      · rcases orKeys_spec ht with htt | rfl
        · exact htt
        · decide
  · intro data' hres2 h1 h2 h3
    obtain rfl : data' = data := by
      rw [hres] at hres2
      exact (Except.ok.inj hres2).symm
    have hnn : isNullish data' = false := isNullish_of_truthy hdt
    have hfalsy : ∀ k ∈ (["title", "titleFull", "titleMain"] : List String),
        truthy (jsGetQ data' k) = false := by
      intro k hk
      fin_cases hk <;> assumption
    have htit0 : title = .str "" := by
      have h0 := orKeys_all_falsy (.str "") hnn hfalsy
      rw [htit] at h0
      exact (Option.some.injEq _ _).mp h0
    subst htit0
    rcases hT with ⟨htr, rfl⟩ | ⟨htr, t, ht, rfl⟩
    · exfalso
      rw [show lookupField (recordFields idv (.str "") authors rawAuthors year images
          rawImage formats publishers rawPublisher descriptions rawDescription
          languages url) "title" = .str "" by
        simp [recordFields, lookupField]] at htr
      exact absurd htr (by decide)
    · obtain rfl : t = .str "Untitled" := by
        have h0 := orKeys_all_falsy (.str "Untitled") hnn hfalsy
        rw [ht] at h0
        exact (Option.some.injEq _ _).mp h0
      simp [recordFields, objSet, detailExtras, jsGet, lookupField]

/-- C8 witness. -/
theorem C8_title_never_empty_witness :
    ∃ d, getBookDetailsCore (.obj [("id", .str "x")]) = .ok d ∧
      (∃ t, jsGet d "title" = some t ∧ truthy t = true) := by
  have hh : ∃ d, getBookDetailsCore (.obj [("id", .str "x")]) = .ok d := ⟨_, rfl⟩
  obtain ⟨d, hd⟩ := hh
  exact ⟨d, hd, (C8_title_never_empty _ _ hd).1⟩

/-! ## C1: plural fields are sequences -/

/-- C1 counterexample: `summary` on the detail object is
`data.summaries || (data.summary ? [data.summary] : [])`, so a truthy
non-array `summaries` value passes through as a scalar.  On the payload
`{ id: "x", summaries: "hello" }` the returned detail's `summary` field
is the bare string `"hello"`, not a sequence. -/
theorem C1_counterexample :
    (getBookDetailsCore (.obj [("id", .str "x"), ("summaries", .str "hello")])).toOption.bind
      (fun d => jsGet d "summary") = some (.str "hello") ∧
    isArray (.str "hello") = false :=
  ⟨rfl, rfl⟩

/-- C1 (amended): every plural field except `summary` is always a
sequence — `authors`, `images`, `formats`, `publishers`, `descriptions`,
`languages` on every normalized record, and those plus `holdings`,
`subjects`, `tableOfContents`, `isbn`, `issn`, `physicalDescriptions`,
`series`, `genres` on every returned detail; `summary` is a sequence
whenever the resolved record's raw `summaries` value is falsy or an
array (a truthy non-array `summaries` passes through as-is). -/
theorem C1_plural_fields_are_sequences :
    (∀ r o k, transformRecord r = some o →
      k ∈ (["authors", "images", "formats", "publishers", "descriptions",
            "languages"] : List String) →
      isArray (fieldOf o k) = true) ∧
    (∀ resp d k, getBookDetailsCore resp = .ok d →
      k ∈ (["authors", "images", "formats", "publishers", "descriptions",
            "languages", "holdings", "subjects", "tableOfContents", "isbn",
            "issn", "physicalDescriptions", "series", "genres"] : List String) →
      isArray (fieldOf d k) = true) ∧
    (∀ resp d data, getBookDetailsCore resp = .ok d →
      resolveEnvelope resp = .ok data →
      (truthy (jsGetQ data "summaries") = false ∨
        isArray (jsGetQ data "summaries") = true) →
      isArray (fieldOf d "summary") = true) := by
  refine ⟨?_, ?_, ?_⟩
  · intro r o k h hk
    obtain ⟨authors, images, formats, publishers, descriptions, languages, idv, title,
      rawAuthors, year, rawImage, rawPublisher, rawDescription, url,
      _, _, _, _, _, _, _, _, _, _, _, _, _, _, rfl⟩ := transformRecord_inv h
    fin_cases hk <;> simp [recordFields, fieldOf, lookupField, isArray]
  · intro resp d k h hk
    obtain ⟨data, trF, trF2, subjects, toc, isbn, issn, pds, series, genres, avail,
      holds, summary, hres, hdt, htrF, hT, _, _, _, _, _, _, _, _, _, _, rfl⟩ :=
      getBookDetailsCore_ok_inv h
    obtain ⟨authors, images, formats, publishers, descriptions, languages, idv, title,
      rawAuthors, year, rawImage, rawPublisher, rawDescription, url,
      _, _, _, _, _, _, _, _, _, _, _, _, _, _, rfl⟩ := transformFields_inv htrF
    rcases hT with ⟨_, rfl⟩ | ⟨_, t, _, rfl⟩ <;>
      fin_cases hk <;>
      simp [recordFields, objSet, detailExtras, fieldOf, lookupField, isArray]
  · intro resp d data h hres2 hsm
    obtain ⟨data', trF, trF2, subjects, toc, isbn, issn, pds, series, genres, avail,
      holds, summary, hres, hdt, htrF, hT, _, _, _, _, _, _, _, _, _, hsum, rfl⟩ :=
      getBookDetailsCore_ok_inv h
    have he : data' = data := by
      rw [hres] at hres2
      exact Except.ok.inj hres2
    rw [← he] at hsm
    have hsummary : isArray summary = true := by
      rw [summaryOf, jsGet_of_truthy hdt "summaries", bind_some_eq] at hsum
      rcases hsm with hf | ha
      · rw [if_neg (by simp [hf])] at hsum
        cases hg2 : jsGet data' "summary" with
        | none => rw [hg2] at hsum; simp at hsum
        | some sv =>
          rw [hg2, bind_some_eq] at hsum
          by_cases hts : truthy sv = true
          · rw [if_pos hts] at hsum
            obtain rfl : JsVal.arr [sv] = summary := by simpa [pure] using hsum
            rfl
          · rw [if_neg hts] at hsum
            obtain rfl : JsVal.arr [] = summary := by simpa [pure] using hsum
            rfl
      · have htv : truthy (jsGetQ data' "summaries") = true := by
          cases hv : jsGetQ data' "summaries" <;> simp_all [isArray, truthy]
        rw [if_pos htv] at hsum
        obtain rfl : jsGetQ data' "summaries" = summary := by simpa [pure] using hsum
        exact ha
    obtain ⟨authors, images, formats, publishers, descriptions, languages, idv, title,
      rawAuthors, year, rawImage, rawPublisher, rawDescription, url,
      _, _, _, _, _, _, _, _, _, _, _, _, _, _, rfl⟩ := transformFields_inv htrF
    rcases hT with ⟨_, rfl⟩ | ⟨_, t, _, rfl⟩ <;>
      simpa [recordFields, objSet, detailExtras, fieldOf, lookupField] using hsummary

/-! ## C2: totality of the Record Normalizer -/

/-- C2 counterexample: normalization is *not* total over every object
input — a `null` element inside an array-valued `authors` field makes
the per-element coercion read `a.name` off `null`, a `TypeError`. -/
theorem C2_counterexample :
    transformRecord (.obj [("authors", .arr [.null])]) = none := rfl

lemma jsGet_of_not_nullish {a : JsVal} (h : isNullish a = false) (k : String) :
    jsGet a k = some (jsGetQ a k) := by
  cases a <;> simp [isNullish] at h <;> simp [jsGet, jsGetQ]

lemma authorElem_isSome {a : JsVal} (h : isNullish a = false) :
    (authorElem a).isSome = true := by
  rw [authorElem]
  by_cases hs : isString a = true
  · simp [hs]
  · rw [if_neg hs, jsGet_of_not_nullish h "name", bind_some_eq]
    by_cases h1 : truthy (jsGetQ a "name") = true
    · simp [h1]
    · rw [if_neg h1, jsGet_of_not_nullish h "fullname", bind_some_eq]
      by_cases h2 : truthy (jsGetQ a "fullname") = true <;> simp [h2]

lemma imageElem_isSome {a : JsVal} (h : isNullish a = false) :
    (imageElem a).isSome = true := by
  rw [imageElem]
  by_cases hs : isString a = true
  · simp [hs]
  · rw [if_neg hs, jsGet_of_not_nullish h "url", bind_some_eq]
    by_cases h1 : truthy (jsGetQ a "url") = true
    · simp [h1]
    · rw [if_neg h1, jsGet_of_not_nullish h "medium", bind_some_eq]
      by_cases h2 : truthy (jsGetQ a "medium") = true
      · simp [h2]
      · rw [if_neg h2, jsGet_of_not_nullish h "small", bind_some_eq]
        by_cases h3 : truthy (jsGetQ a "small") = true <;> simp [h3]

lemma formatElem_isSome {a : JsVal} (h : isNullish a = false) :
    (formatElem a).isSome = true := by
  rw [formatElem]
  by_cases hs : isString a = true
  · simp [hs]
  · rw [if_neg hs, jsGet_of_not_nullish h "translated", bind_some_eq]
    by_cases h1 : truthy (jsGetQ a "translated") = true
    · simp [h1]
    · rw [if_neg h1, jsGet_of_not_nullish h "value", bind_some_eq]
      by_cases h2 : truthy (jsGetQ a "value") = true <;> simp [h2]

lemma optMap_isSome {f : JsVal → Option JsVal} :
    ∀ {xs : List JsVal}, (∀ x ∈ xs, (f x).isSome = true) →
      (optMap f xs).isSome = true := by
  intro xs
  induction xs with
  | nil => intro _; rfl
  | cons x rest ih =>
    intro h
    rw [optMap]
    obtain ⟨y, hy⟩ := Option.isSome_iff_exists.mp (h x (by simp))
    rw [hy, bind_some_eq]
    obtain ⟨ys, hys⟩ := Option.isSome_iff_exists.mp
      (ih (fun z hz => h z (by simp [hz])))
    rw [hys, bind_some_eq]
    rfl

lemma authorsOf_isSome {fs : List (String × JsVal)}
    (hauth : ∀ a ∈ asElems (jsGetQ (.obj fs) "authors"), isNullish a = false) :
    (authorsOf (.obj fs)).isSome = true := by
  rw [authorsOf, jsGet_obj, bind_some_eq]
  by_cases hc : (truthy (lookupField fs "primaryAuthors") &&
      isArray (lookupField fs "primaryAuthors")) = true
  · simp [hc]
  · rw [if_neg (by simp_all), jsGet_obj, bind_some_eq]
    by_cases ht : truthy (lookupField fs "authors") = true
    · rw [if_pos ht]
      by_cases ha : isArray (lookupField fs "authors") = true
      · rw [if_pos ha]
        exact optMap_isSome (fun x hx => authorElem_isSome (hauth x hx))
      · rw [if_neg ha]
        by_cases hstr : isString (lookupField fs "authors") = true <;> simp [hstr]
    · rw [if_neg ht]; rfl

lemma imagesOf_isSome {fs : List (String × JsVal)}
    (himg : ∀ a ∈ asElems (jsGetQ (.obj fs) "images"), isNullish a = false) :
    (imagesOf (.obj fs)).isSome = true := by
  rw [imagesOf, jsGet_obj, bind_some_eq]
  by_cases ht : truthy (lookupField fs "images") = true
  · rw [if_pos ht]
    by_cases ha : isArray (lookupField fs "images") = true
    · rw [if_pos ha]
      exact optMap_isSome (fun x hx => imageElem_isSome (himg x hx))
    · rw [if_neg ha]
      by_cases hstr : isString (lookupField fs "images") = true <;> simp [hstr]
  · rw [if_neg ht]; rfl

lemma formatsOf_isSome {fs : List (String × JsVal)}
    (hfmt : ∀ a ∈ asElems (jsGetQ (.obj fs) "formats"), isNullish a = false) :
    (formatsOf (.obj fs)).isSome = true := by
  rw [formatsOf, jsGet_obj, bind_some_eq]
  by_cases ht : truthy (lookupField fs "formats") = true
  · rw [if_pos ht]
    apply optMap_isSome
    intro x hx
    apply formatElem_isSome
    by_cases ha : isArray (lookupField fs "formats") = true
    · rw [if_pos ha] at hx
      exact hfmt x hx
    · rw [if_neg ha] at hx
      simp only [List.mem_singleton] at hx
      subst hx
      cases hv : lookupField fs "formats" <;> simp_all [truthy, isNullish]
  · rw [if_neg ht]; rfl

lemma wrapOf_isSome {fs : List (String × JsVal)} (k1 k2 : String) :
    (do
      let v ← jsGet (JsVal.obj fs) k1
      if truthy v then
        pure (if isArray v then asElems v else [v])
      else
        let w ← jsGet (JsVal.obj fs) k2
        if truthy w then
          pure (if isArray w then asElems w else [w])
        else
          pure ([] : List JsVal)).isSome = true := by
  rw [jsGet_obj, bind_some_eq]
  by_cases h1 : truthy (lookupField fs k1) = true
  · simp [h1]
  · rw [if_neg h1, jsGet_obj, bind_some_eq]
    by_cases h2 : truthy (lookupField fs k2) = true <;> simp [h2]

lemma publishersOf_isSome (fs : List (String × JsVal)) :
    (publishersOf (.obj fs)).isSome = true := by
  rw [publishersOf, jsGet_obj, bind_some_eq]
  by_cases h1 : truthy (lookupField fs "publishers") = true <;> simp [h1]

lemma descriptionsOf_isSome (fs : List (String × JsVal)) :
    (descriptionsOf (.obj fs)).isSome = true := by
  rw [descriptionsOf, jsGet_obj, bind_some_eq]
  by_cases h1 : truthy (lookupField fs "summaries") = true
  · simp [h1]
  · rw [if_neg h1, jsGet_obj, bind_some_eq]
    by_cases h2 : truthy (lookupField fs "description") = true <;> simp [h2]

lemma languagesOf_isSome (fs : List (String × JsVal)) :
    (languagesOf (.obj fs)).isSome = true := by
  rw [languagesOf, jsGet_obj, bind_some_eq]
  by_cases h1 : truthy (lookupField fs "languages") = true <;> simp [h1]

lemma yearOf_isSome (fs : List (String × JsVal)) :
    (yearOf (.obj fs)).isSome = true := by
  rw [yearOf, jsGet_obj, bind_some_eq]
  by_cases h1 : truthy (lookupField fs "year") = true
  · simp [h1]
  · rw [if_neg h1, jsGet_obj, bind_some_eq]
    by_cases h2 : truthy (lookupField fs "publicationYear") = true
    · simp [h2]
    · rw [if_neg h2, jsGet_obj, bind_some_eq]; rfl

lemma urlOf_isSome (fs : List (String × JsVal)) :
    (urlOf (.obj fs)).isSome = true := by
  rw [urlOf, jsGet_obj, bind_some_eq]
  by_cases h1 : truthy (lookupField fs "url") = true
  · simp [h1]
  · rw [if_neg h1, jsGet_obj, bind_some_eq]
    by_cases h2 : truthy (lookupField fs "recordPage") = true
    · simp [h2]
    · rw [if_neg h2, jsGet_obj, bind_some_eq]; rfl

/-- C2 (amended): normalization is total over every *object* input whose
array-valued `authors`, `images` and `formats` elements are not
`null`/`undefined` — every nested lookup is optional-safe, every
coercion falls back to its default, and no error is raised.  (With a
nullish element in one of those arrays the per-element variant coercion
faults; see the counterexample.) -/
theorem C2_normalization_total (fs : List (String × JsVal))
    (hauth : ∀ a ∈ asElems (jsGetQ (.obj fs) "authors"), isNullish a = false)
    (himg : ∀ a ∈ asElems (jsGetQ (.obj fs) "images"), isNullish a = false)
    (hfmt : ∀ a ∈ asElems (jsGetQ (.obj fs) "formats"), isNullish a = false) :
    (transformRecord (.obj fs)).isSome = true := by
  rw [transformRecord]
  rw [show ∀ (o : Option (List (String × JsVal))),
      (Option.map JsVal.obj o).isSome = o.isSome from fun o => by cases o <;> rfl]
  rw [transformFields]
  obtain ⟨authors, h1⟩ := Option.isSome_iff_exists.mp (authorsOf_isSome hauth)
  rw [h1, bind_some_eq]
  obtain ⟨images, h2⟩ := Option.isSome_iff_exists.mp (imagesOf_isSome himg)
  rw [h2, bind_some_eq]
  obtain ⟨formats, h3⟩ := Option.isSome_iff_exists.mp (formatsOf_isSome hfmt)
  rw [h3, bind_some_eq]
  obtain ⟨publishers, h4⟩ := Option.isSome_iff_exists.mp (publishersOf_isSome fs)
  rw [h4, bind_some_eq]
  obtain ⟨descriptions, h5⟩ := Option.isSome_iff_exists.mp (descriptionsOf_isSome fs)
  rw [h5, bind_some_eq]
  obtain ⟨languages, h6⟩ := Option.isSome_iff_exists.mp (languagesOf_isSome fs)
  rw [h6, bind_some_eq]
  obtain ⟨idv, h7⟩ := Option.isSome_iff_exists.mp
    (orKeys_isSome (show isNullish (JsVal.obj fs) = false from rfl)
      ["id", "recordId", "@id"] (.str ""))
  rw [h7, bind_some_eq]
  obtain ⟨title, h8⟩ := Option.isSome_iff_exists.mp
    (orKeys_isSome (show isNullish (JsVal.obj fs) = false from rfl)
      ["title", "titleFull", "titleMain"] (.str ""))
  rw [h8, bind_some_eq]
  rw [jsGet_obj, bind_some_eq]
  obtain ⟨year, h9⟩ := Option.isSome_iff_exists.mp (yearOf_isSome fs)
  rw [h9, bind_some_eq]
  rw [jsGet_obj, bind_some_eq, jsGet_obj, bind_some_eq, jsGet_obj, bind_some_eq]
  obtain ⟨url, h10⟩ := Option.isSome_iff_exists.mp (urlOf_isSome fs)
  rw [h10, bind_some_eq]
  rfl

/-- C2 witness. -/
theorem C2_normalization_total_witness :
    (transformRecord (.obj [("authors", .arr [.num 3, .str "A"]),
      ("images", .str "i.jpg"),
      ("formats", .obj [("value", .str "Book")])])).isSome = true :=
  C2_normalization_total _ (by decide) (by decide) (by decide)

/-! ## C6: idempotence of normalization -/

/-- C6 counterexample: renormalizing the canonical record loses
description elements beyond the first — the canonical object stores them
under `descriptions`, but the normalizer reads only `summaries` and the
scalar `description`. -/
theorem C6_counterexample :
    ((transformRecord (.obj [("summaries", .arr [.str "a", .str "b"])])).bind
      (fun o => (transformRecord o).bind (fun o2 => jsGet o2 "descriptions"))) =
      some (.arr [.str "a"]) ∧
    ((transformRecord (.obj [("summaries", .arr [.str "a", .str "b"])])).bind
      (fun o => jsGet o "descriptions")) = some (.arr [.str "a", .str "b"]) ∧
    JsVal.arr [.str "a"] ≠ JsVal.arr [.str "a", .str "b"] := by
  refine ⟨rfl, rfl, by simp⟩

/-- `orKeys` on a non-nullish receiver evaluates to the `||`-fold of the
key reads over the default. -/
lemma orKeys_eval {record : JsVal} (hnn : isNullish record = false) :
    ∀ (ks : List String) (dflt : JsVal),
      orKeys record ks dflt =
        some (ks.foldr (fun k acc => jsOr (jsGetQ record k) acc) dflt) := by
  intro ks
  induction ks with
  | nil => intro dflt; rfl
  | cons k rest ih =>
    intro dflt
    rw [orKeys, jsGet_of_not_nullish hnn k, bind_some_eq]
    by_cases ht : truthy (jsGetQ record k) = true
    · rw [if_pos ht]
      simp [jsOr, ht, pure]
    · rw [if_neg ht, ih]
      simp [jsOr, ht]

/-- The `year` field is truthy or the empty string. -/
lemma yearOf_spec {r year : JsVal} (h : yearOf r = some year) :
    truthy year = true ∨ year = .str "" := by
  rw [yearOf] at h
  cases h1 : jsGet r "year" with
  | none => rw [h1] at h; simp at h
  | some y =>
    rw [h1, bind_some_eq] at h
    by_cases ht : truthy y = true
    · rw [if_pos ht] at h
      obtain rfl : y = year := by simpa [pure] using h
      exact Or.inl ht
    · rw [if_neg ht] at h
      cases h2 : jsGet r "publicationYear" with
      | none => rw [h2] at h; simp at h
      | some py =>
        rw [h2, bind_some_eq] at h
        by_cases ht2 : truthy py = true
        · rw [if_pos ht2] at h
          obtain rfl : py = year := by simpa [pure] using h
          exact Or.inl ht2
        · rw [if_neg ht2] at h
          cases h3 : jsGet r "publicationDates" with
          | none => rw [h3] at h; simp at h
          | some pd =>
            rw [h3, bind_some_eq] at h
            obtain rfl : jsOr (index0 pd) (.str "") = year := by simpa [pure] using h
            exact truthy_jsOr_default

/-- The `url` field is truthy or the empty string. -/
lemma urlOf_spec {r url : JsVal} (h : urlOf r = some url) :
    truthy url = true ∨ url = .str "" := by
  rw [urlOf] at h
  cases h1 : jsGet r "url" with
  | none => rw [h1] at h; simp at h
  | some u =>
    rw [h1, bind_some_eq] at h
    by_cases ht : truthy u = true
    · rw [if_pos ht] at h
      obtain rfl : u = url := by simpa [pure] using h
      exact Or.inl ht
    · rw [if_neg ht] at h
      cases h2 : jsGet r "recordPage" with
      | none => rw [h2] at h; simp at h
      | some rp =>
        rw [h2, bind_some_eq] at h
        by_cases ht2 : truthy rp = true
        · rw [if_pos ht2] at h
          obtain rfl : rp = url := by simpa [pure] using h
          exact Or.inl ht2
        · rw [if_neg ht2] at h
          cases h3 : jsGet r "links" with
          | none => rw [h3] at h; simp at h
          | some links =>
            rw [h3, bind_some_eq] at h
            obtain rfl : jsOr (jsGetQ links "recordPage") (.str "") = url := by
              simpa [pure] using h
            exact truthy_jsOr_default

/-- A per-element coercion that keeps strings keeps an all-strings list. -/
lemma optMap_of_strings (f : JsVal → Option JsVal)
    (hf : ∀ s : String, f (.str s) = some (.str s)) :
    ∀ xs : List JsVal, (∀ a ∈ xs, isString a = true) → optMap f xs = some xs := by
  intro xs
  induction xs with
  | nil => intro _; rfl
  | cons x rest ih =>
    intro h
    obtain ⟨s, rfl⟩ : ∃ s, x = JsVal.str s := by
      have := h x (by simp)
      cases x <;> simp_all [isString]
    rw [optMap, hf s, bind_some_eq, ih (fun a ha => h a (by simp [ha])), bind_some_eq]
    rfl

lemma jsOr_default_of_spec {v : JsVal} (h : truthy v = true ∨ v = .str "") :
    jsOr v (.str "") = v := by
  rcases h with h | rfl
  · simp [jsOr, h]
  · simp [jsOr]

/-- `x || '' || ''` collapses to `x || ''`. -/
lemma jsOr_default_idem (x : JsVal) :
    jsOr (jsOr x (.str "")) (.str "") = jsOr x (.str "") := by
  by_cases h : truthy x = true
  · rw [jsOr_of_truthy h, jsOr_of_truthy h]
  · have h' : truthy x = false := by simpa using h
    rw [jsOr_of_falsy h', jsOr_of_falsy (by simp [truthy])]

/-- C6 (amended): normalization is idempotent on canonical records whose
`authors`, `images` and `formats` elements are all strings with a truthy
first author, and whose `descriptions` is empty (with falsy
`description`) or exactly the singleton of a truthy non-array
`description`; in general a second normalization loses `descriptions`
elements beyond the first (see the counterexample) and stringifies
non-string elements. -/
theorem C6_idempotent_on_canonical (r o : JsVal)
    (h : transformRecord r = some o)
    (ha1 : truthy (headVal (asElems (fieldOf o "authors"))) = true)
    (ha3 : ∀ a ∈ asElems (fieldOf o "authors"), isString a = true)
    (hi : ∀ a ∈ asElems (fieldOf o "images"), isString a = true)
    (hf : ∀ a ∈ asElems (fieldOf o "formats"), isString a = true)
    (hd : (truthy (fieldOf o "description") = false ∧
            fieldOf o "descriptions" = .arr []) ∨
          (truthy (fieldOf o "description") = true ∧
            isArray (fieldOf o "description") = false ∧
            fieldOf o "descriptions" = .arr [fieldOf o "description"])) :
    transformRecord o = some o := by
  obtain ⟨authors, images, formats, publishers, descriptions, languages, idv, title,
    rawAuthors, year, rawImage, rawPublisher, rawDescription, url,
    hA, hI, hF, hP, hD, hL, hid, htit, hra, hy, hri, hrp, hrd, hu, rfl⟩ :=
    transformRecord_inv h
  set R : List (String × JsVal) := recordFields idv title authors rawAuthors year
    images rawImage formats publishers rawPublisher descriptions rawDescription
    languages url with hR
  have lA : fieldOf (JsVal.obj R) "authors" = .arr authors := by
    rw [hR]; simp [recordFields, fieldOf, lookupField]
  have lI : fieldOf (JsVal.obj R) "images" = .arr images := by
    rw [hR]; simp [recordFields, fieldOf, lookupField]
  have lF : fieldOf (JsVal.obj R) "formats" = .arr formats := by
    rw [hR]; simp [recordFields, fieldOf, lookupField]
  have lDs : fieldOf (JsVal.obj R) "descriptions" = .arr descriptions := by
    rw [hR]; simp [recordFields, fieldOf, lookupField]
  have lD : fieldOf (JsVal.obj R) "description" =
      jsOr (headVal descriptions) (jsOr rawDescription (.str "")) := by
    rw [hR]; simp [recordFields, fieldOf, lookupField]
  rw [lA] at ha1 ha3
  rw [lI] at hi
  rw [lF] at hf
  rw [lD, lDs] at hd
  simp only [asElems] at ha1 ha3 hi hf
  have e1 : authorsOf (JsVal.obj R) = some authors := by
    rw [authorsOf, jsGet_obj, bind_some_eq]
    rw [show lookupField R "primaryAuthors" = .undefined by
      rw [hR]; simp [recordFields, lookupField]]
    rw [if_neg (by simp [truthy, isArray]), jsGet_obj, bind_some_eq]
    rw [show lookupField R "authors" = .arr authors by
      rw [hR]; simp [recordFields, lookupField]]
    rw [if_pos (by simp [truthy]), if_pos (by simp [isArray])]
    exact optMap_of_strings authorElem (fun s => rfl) authors ha3
  have e2 : imagesOf (JsVal.obj R) = some images := by
    rw [imagesOf, jsGet_obj, bind_some_eq]
    rw [show lookupField R "images" = .arr images by
      rw [hR]; simp [recordFields, lookupField]]
    rw [if_pos (by simp [truthy]), if_pos (by simp [isArray])]
    exact optMap_of_strings imageElem (fun s => rfl) images hi
  have e3 : formatsOf (JsVal.obj R) = some formats := by
    rw [formatsOf, jsGet_obj, bind_some_eq]
    rw [show lookupField R "formats" = .arr formats by
      rw [hR]; simp [recordFields, lookupField]]
    rw [if_pos (by simp [truthy])]
    rw [show (if isArray (.arr formats) = true then asElems (.arr formats)
        else [JsVal.arr formats]) = formats by simp [isArray, asElems]]
    exact optMap_of_strings formatElem (fun s => rfl) formats hf
  have e4 : publishersOf (JsVal.obj R) = some publishers := by
    rw [publishersOf, jsGet_obj, bind_some_eq]
    rw [show lookupField R "publishers" = .arr publishers by
      rw [hR]; simp [recordFields, lookupField]]
    rw [if_pos (by simp [truthy])]
    simp [isArray, asElems, pure]
  have e5 : descriptionsOf (JsVal.obj R) = some descriptions := by
    rw [descriptionsOf, jsGet_obj, bind_some_eq]
    rw [show lookupField R "summaries" = .undefined by
      rw [hR]; simp [recordFields, lookupField]]
    rw [if_neg (by simp [truthy]), jsGet_obj, bind_some_eq]
    rw [show lookupField R "description" =
        jsOr (headVal descriptions) (jsOr rawDescription (.str "")) by
      rw [hR]; simp [recordFields, lookupField]]
    rcases hd with ⟨hfalse, hdesc⟩ | ⟨htrue, hnotarr, hdesc⟩
    · obtain rfl : descriptions = [] := by simpa using hdesc
      rw [if_neg (by simp [hfalse])]
      rfl
    · cases descriptions with
      | nil => simp at hdesc
      | cons dh dt =>
        obtain ⟨hdh, hdt⟩ : dh = jsOr (headVal (dh :: dt)) (jsOr rawDescription (.str "")) ∧
            dt = [] := by simpa using hdesc
        subst hdt
        simp only [headVal] at hdh htrue hnotarr ⊢
        rw [← hdh] at htrue hnotarr ⊢
        rw [if_pos htrue, if_neg (by simp [hnotarr])]
        rfl
  have e6 : languagesOf (JsVal.obj R) = some languages := by
    rw [languagesOf, jsGet_obj, bind_some_eq]
    rw [show lookupField R "languages" = .arr languages by
      rw [hR]; simp [recordFields, lookupField]]
    rw [if_pos (by simp [truthy])]
    simp [isArray, asElems, pure]
  have e7 : orKeys (JsVal.obj R) ["id", "recordId", "@id"] (.str "") = some idv := by
    rw [orKeys_eval (show isNullish (JsVal.obj R) = false from rfl)]
    simp only [List.foldr_cons, List.foldr_nil]
    rw [show jsGetQ (JsVal.obj R) "id" = idv by
      rw [hR]; simp [recordFields, jsGetQ, lookupField]]
    rw [show jsGetQ (JsVal.obj R) "recordId" = .undefined by
      rw [hR]; simp [recordFields, jsGetQ, lookupField]]
    rw [show jsGetQ (JsVal.obj R) "@id" = .undefined by
      rw [hR]; simp [recordFields, jsGetQ, lookupField]]
    simp only [jsOr_of_falsy (show truthy .undefined = false from rfl)]
    rw [jsOr_default_of_spec (orKeys_spec hid)]
  have e8 : orKeys (JsVal.obj R) ["title", "titleFull", "titleMain"] (.str "") =
      some title := by
    rw [orKeys_eval (show isNullish (JsVal.obj R) = false from rfl)]
    simp only [List.foldr_cons, List.foldr_nil]
    rw [show jsGetQ (JsVal.obj R) "title" = title by
      rw [hR]; simp [recordFields, jsGetQ, lookupField]]
    rw [show jsGetQ (JsVal.obj R) "titleFull" = .undefined by
      rw [hR]; simp [recordFields, jsGetQ, lookupField]]
    rw [show jsGetQ (JsVal.obj R) "titleMain" = .undefined by
      rw [hR]; simp [recordFields, jsGetQ, lookupField]]
    simp only [jsOr_of_falsy (show truthy .undefined = false from rfl)]
    rw [jsOr_default_of_spec (orKeys_spec htit)]
  have e9 : yearOf (JsVal.obj R) = some year := by
    rw [yearOf, jsGet_obj, bind_some_eq]
    rw [show lookupField R "year" = year by
      rw [hR]; simp [recordFields, lookupField]]
    rcases yearOf_spec hy with ht | rfl
    · rw [if_pos ht]; rfl
    · rw [if_neg (by simp [truthy]), jsGet_obj, bind_some_eq]
      rw [show lookupField R "publicationYear" = .undefined by
        rw [hR]; simp [recordFields, lookupField]]
      rw [if_neg (by simp [truthy]), jsGet_obj, bind_some_eq]
      rw [show lookupField R "publicationDates" = .undefined by
        rw [hR]; simp [recordFields, lookupField]]
      rfl
  have e10 : urlOf (JsVal.obj R) = some url := by
    rw [urlOf, jsGet_obj, bind_some_eq]
    rw [show lookupField R "url" = url by
      rw [hR]; simp [recordFields, lookupField]]
    rcases urlOf_spec hu with ht | rfl
    · rw [if_pos ht]; rfl
    · rw [if_neg (by simp [truthy]), jsGet_obj, bind_some_eq]
      rw [show lookupField R "recordPage" = .undefined by
        rw [hR]; simp [recordFields, lookupField]]
      rw [if_neg (by simp [truthy]), jsGet_obj, bind_some_eq]
      rw [show lookupField R "links" = .undefined by
        rw [hR]; simp [recordFields, lookupField]]
      rfl
  have gA : jsGet (JsVal.obj R) "authors" = some (.arr authors) := by
    rw [jsGet_obj]
    rw [show lookupField R "authors" = .arr authors by
      rw [hR]; simp [recordFields, lookupField]]
  have gI : jsGet (JsVal.obj R) "image" =
      some (jsOr (headVal images) (jsOr rawImage (.str ""))) := by
    rw [jsGet_obj]
    rw [show lookupField R "image" = jsOr (headVal images) (jsOr rawImage (.str "")) by
      rw [hR]; simp [recordFields, lookupField]]
  have gP : jsGet (JsVal.obj R) "publisher" =
      some (jsOr (headVal publishers) (jsOr rawPublisher (.str ""))) := by
    rw [jsGet_obj]
    rw [show lookupField R "publisher" =
        jsOr (headVal publishers) (jsOr rawPublisher (.str "")) by
      rw [hR]; simp [recordFields, lookupField]]
  have gD : jsGet (JsVal.obj R) "description" =
      some (jsOr (headVal descriptions) (jsOr rawDescription (.str ""))) := by
    rw [jsGet_obj]
    rw [show lookupField R "description" =
        jsOr (headVal descriptions) (jsOr rawDescription (.str "")) by
      rw [hR]; simp [recordFields, lookupField]]
  have eauthor : jsOr (headVal authors) (jsOr (JsVal.arr authors) (.str "")) =
      jsOr (headVal authors) (jsOr rawAuthors (.str "")) := by
    rw [jsOr_of_truthy ha1, jsOr_of_truthy ha1]
  have eimage : jsOr (headVal images)
      (jsOr (jsOr (headVal images) (jsOr rawImage (.str ""))) (.str "")) =
      jsOr (headVal images) (jsOr rawImage (.str "")) := by
    by_cases hh : truthy (headVal images) = true
    · rw [jsOr_of_truthy hh, jsOr_of_truthy hh]
    · have hh' : truthy (headVal images) = false := by simpa using hh
      simp only [jsOr_of_falsy hh']
      exact jsOr_default_idem rawImage
  have epublisher : jsOr (headVal publishers)
      (jsOr (jsOr (headVal publishers) (jsOr rawPublisher (.str ""))) (.str "")) =
      jsOr (headVal publishers) (jsOr rawPublisher (.str "")) := by
    by_cases hh : truthy (headVal publishers) = true
    · rw [jsOr_of_truthy hh, jsOr_of_truthy hh]
    · have hh' : truthy (headVal publishers) = false := by simpa using hh
      simp only [jsOr_of_falsy hh']
      exact jsOr_default_idem rawPublisher
  have edescription : jsOr (headVal descriptions)
      (jsOr (jsOr (headVal descriptions) (jsOr rawDescription (.str ""))) (.str "")) =
      jsOr (headVal descriptions) (jsOr rawDescription (.str "")) := by
    by_cases hh : truthy (headVal descriptions) = true
    · rw [jsOr_of_truthy hh, jsOr_of_truthy hh]
    · have hh' : truthy (headVal descriptions) = false := by simpa using hh
      simp only [jsOr_of_falsy hh']
      exact jsOr_default_idem rawDescription
  rw [transformRecord, transformFields, e1, bind_some_eq, e2, bind_some_eq,
    e3, bind_some_eq, e4, bind_some_eq, e5, bind_some_eq, e6, bind_some_eq,
    e7, bind_some_eq, e8, bind_some_eq, gA, bind_some_eq, e9, bind_some_eq,
    gI, bind_some_eq, gP, bind_some_eq, gD, bind_some_eq, e10, bind_some_eq]
  simp only [pure, Option.map_some', Option.some.injEq, JsVal.obj.injEq]
  rw [hR]
  simp only [recordFields, List.cons.injEq, Prod.mk.injEq, and_true, true_and]
  exact ⟨eauthor, eimage, epublisher, edescription⟩

/-- C6 witness. -/
theorem C6_idempotent_on_canonical_witness :
    transformRecord (.obj [("id", .str "x"), ("title", .str "T"),
        ("authors", .arr [.str "A"]), ("description", .str "D")]) =
      some (.obj [("id", .str "x"), ("title", .str "T"),
        ("authors", .arr [.str "A"]), ("author", .str "A"), ("year", .str ""),
        ("images", .arr []), ("image", .str ""), ("formats", .arr []),
        ("format", .arr []), ("publishers", .arr []), ("publisher", .str ""),
        ("descriptions", .arr [.str "D"]), ("description", .str "D"),
        ("languages", .arr []), ("language", .arr []), ("url", .str "")]) ∧
    transformRecord (.obj [("id", .str "x"), ("title", .str "T"),
        ("authors", .arr [.str "A"]), ("author", .str "A"), ("year", .str ""),
        ("images", .arr []), ("image", .str ""), ("formats", .arr []),
        ("format", .arr []), ("publishers", .arr []), ("publisher", .str ""),
        ("descriptions", .arr [.str "D"]), ("description", .str "D"),
        ("languages", .arr []), ("language", .arr []), ("url", .str "")]) =
      some (.obj [("id", .str "x"), ("title", .str "T"),
        ("authors", .arr [.str "A"]), ("author", .str "A"), ("year", .str ""),
        ("images", .arr []), ("image", .str ""), ("formats", .arr []),
        ("format", .arr []), ("publishers", .arr []), ("publisher", .str ""),
        ("descriptions", .arr [.str "D"]), ("description", .str "D"),
        ("languages", .arr []), ("language", .arr []), ("url", .str "")]) := by
  refine ⟨rfl, C6_idempotent_on_canonical (.obj [("id", .str "x"), ("title", .str "T"),
    ("authors", .arr [.str "A"]), ("description", .str "D")]) _ rfl
    (by decide) (by decide) (by decide) (by decide)
    (Or.inr ⟨by decide, by decide, rfl⟩)⟩

/-! ## C7: the no-holdings fallback -/

/-- C7 (confirmed): when none of the three holdings-bearing keys
(`holdings`, `availability`, `buildings`) is present, the extractor
falls back to the top-level counts: if `availableCount` or `totalCount`
is present (`!== undefined`), it returns those counts with `|| 0`
defaulting and an empty locations sequence; if neither is present it
returns JS `null` (absent), never a zeroed structure. -/
theorem C7_no_holdings_fallback (data ac tc : JsVal)
    (h1 : jsGet data "holdings" = some .undefined)
    (h2 : jsGet data "availability" = some .undefined)
    (h3 : jsGet data "buildings" = some .undefined)
    (hac : jsGet data "availableCount" = some ac)
    (htc : jsGet data "totalCount" = some tc) :
    extractAvailability data =
      some (if notUndefined ac || notUndefined tc then
        .obj (("available", jsOr ac (.num 0)) :: ("total", jsOr tc (.num 0)) ::
          ("locations", .arr []) :: [])
      else .null) := by
  have hs : holdingsSource data = some [] := by
    rw [holdingsSource, h1, bind_some_eq, if_neg (by simp [truthy]),
      h2, bind_some_eq, if_neg (by simp [truthy]),
      h3, bind_some_eq, if_neg (by simp [truthy])]
    rfl
  rw [extractAvailability, hs, bind_some_eq, if_neg (by simp),
    hac, bind_some_eq, htc, bind_some_eq]
  by_cases hc : (notUndefined ac || notUndefined tc) = true
  · rw [if_pos hc, if_pos hc]; rfl
  · rw [if_neg hc, if_neg hc]; rfl

/-- C7 witness. -/
theorem C7_no_holdings_fallback_witness :
    extractAvailability (.obj [("availableCount", .num 5)]) =
      some (.obj [("available", .num 5), ("total", .num 0), ("locations", .arr [])]) := by
  have h := C7_no_holdings_fallback (.obj [("availableCount", .num 5)])
    (.num 5) .undefined rfl rfl rfl rfl rfl
  simpa [notUndefined, jsOr, truthy] using h

end Finna
